import Mathlib

/-!
Shallow embedding of `src/chatgptmanager/chatgpt.py` (class `Chat`).

Python floats are modelled as rationals (`ℚ`); the pricing table, the
in-memory response cache and the conversation transcript are modelled
directly from the source.  Provider round trips (`openai.ChatCompletion.create`,
`openai.Embedding.create`) are modelled by an oracle argument: `none` means
the provider raised, `some` carries the response payload the code reads.
Python exceptions are modelled by `Except`, the error carrying the object
state at the raise point (Python mutations made before the raise persist).
-/

/-- One transcript entry: a `{'role': ..., 'content': ...}` mapping. -/
structure Speech where
  role : String
  content : String
deriving DecidableEq, Repr

/-- Per-model pricing entry: `{"input": ..., "output": ...}`; the
`text-embedding-ada-002` entry has no `"output"` key, hence `Option`. -/
structure Pricing where
  input : ℚ
  output : Option ℚ
deriving DecidableEq, Repr

/-- The `self.pricing_data` table built in `Chat.__init__`. -/
def initPricing : String → Option Pricing := fun m =>
  if m = "gpt-3.5-turbo" then some ⟨15 / 10000000, some (2 / 1000000)⟩
  else if m = "gpt-4" then some ⟨3 / 100000, some (6 / 100000)⟩
  else if m = "text-embedding-ada-002" then some ⟨1 / 10000000, none⟩
  else none

/-- The mutable state of a `Chat` object. -/
structure Chat where
  api_key : String
  model_name : String
  embedding_model_name : String
  pricing_data : String → Option Pricing
  fee : ℚ
  cache : String × String → Option String
  savedir : String
  chat_history : List Speech
  interactive : Bool
  auto_saveload : Bool

/-- Payload of a successful `openai.ChatCompletion.create` call:
the fields the code reads from `completion`. -/
structure Completion where
  content : String
  prompt_tokens : Nat
  completion_tokens : Nat
deriving DecidableEq, Repr

/-- Errors `Chat.__call__` can raise. -/
inductive CallErr
  /-- the provider round trip raised -/
  | providerError
  /-- Python `KeyError` from a `pricing_data` lookup -/
  | keyError
  /-- Python `IndexError` from `vecs[0]` on an empty response -/
  | indexError
deriving DecidableEq, Repr

/-- Python `Chat.reset`: empties the transcript. -/
def Chat.reset (c : Chat) : Chat :=
  { c with chat_history := [] }

/-- Python `Chat.save`: pickles the cache to a timestamped file; no field of the
object changes. -/
def Chat.save (c : Chat) : Chat := c

/-- A pickled shard file's content: either a dictionary (modelled by its
lookup function) or any non-dict object. -/
inductive Pickled
  | dict (d : String × String → Option String)
  | other

/-- Python `Chat.load(path)` for one shard file: unpickle, `assert isinstance(obj, dict)`
(raise `AssertionError` otherwise, before any merge), then `self.cache |= obj`. -/
def Chat.load_file (c : Chat) (pk : Pickled) : Except Chat Chat :=
  match pk with
  | .dict d =>
      .ok { c with cache := fun k => match d k with
              | some v => some v
              | none => c.cache k }
  | .other => .error c

/-- Python `Chat.load()` with no path: merge every shard file in the save
directory in order; a raise aborts the loop, keeping earlier merges. -/
def Chat.load_none : Chat → List Pickled → Except Chat Chat
  | c, [] => .ok c
  | c, pk :: rest =>
      match c.load_file pk with
      | .ok c' => c'.load_none rest
      | .error ce => .error ce

/-- Python `Chat.calculate_price`: `pricing = self.pricing_data[self.model_name]`
then `pricing["input"] * input_tokens + pricing["output"] * output_tokens`;
a missing key raises `KeyError`. -/
def Chat.calculate_price (c : Chat) (input_tokens output_tokens : ℚ) :
    Except Unit ℚ :=
  match c.pricing_data c.model_name with
  | none => .error ()
  | some pricing =>
      match pricing.output with
      | none => .error ()
      | some outRate => .ok (pricing.input * input_tokens + outRate * output_tokens)

/-- Python `Chat.estimate_price`: price of `len(message)` input tokens and
`len(message) * 1.1 + 20` output tokens. -/
def Chat.estimate_price (c : Chat) (message : String) : Except Unit ℚ :=
  c.calculate_price (message.length : ℚ) ((message.length : ℚ) * (11 / 10) + 20)

/-- Python `Chat.__call__`.  The oracle `provider` is the outcome of
`openai.ChatCompletion.create`: `none` means it raised.  On success the
result is the new state, the response text and the price; on a raise the
error carries the state at the raise point and which error it was. -/
def Chat.call (c : Chat) (message : String) (temperature : ℚ)
    (temporary_interactive : Bool) (provider : Option Completion) :
    Except (Chat × CallErr) (Chat × String × ℚ) :=
  -- saved_param = {"interactive": self.interactive}; self.interactive = True
  let saved_interactive := c.interactive
  let c1 := if temporary_interactive then { c with interactive := true } else c
  -- if not self.interactive: self.chat_history = []
  let c2 := if c1.interactive then c1 else { c1 with chat_history := [] }
  -- if (not self.chat_history) and (temperature == 0): cache lookup
  let hit : Option String :=
    if c2.chat_history.isEmpty ∧ temperature = 0 then
      c2.cache (c2.model_name, message)
    else none
  match hit with
  | some res =>
      -- cached: append both halves, price 0, return (no interactive restore)
      let c3 := { c2 with chat_history :=
        c2.chat_history ++ [Speech.mk "user" message, Speech.mk "assistant" res] }
      .ok (c3, res, 0)
  | none =>
      match provider with
      | none => .error (c2, .providerError)
      | some completion =>
          let res := completion.content
          let c3 := { c2 with chat_history :=
            c2.chat_history ++ [Speech.mk "user" message, Speech.mk "assistant" res] }
          let c4 :=
            if c3.chat_history.length = 2 ∧ temperature = 0 then
              { c3 with cache := fun k =>
                  if k = (c3.model_name, message) then some res else c3.cache k }
            else c3
          match c4.calculate_price (completion.prompt_tokens : ℚ)
              (completion.completion_tokens : ℚ) with
          | .error _ => .error (c4, .keyError)
          | .ok price =>
              let c5 := { c4 with fee := c4.fee + price }
              let c6 :=
                if temporary_interactive then { c5 with interactive := saved_interactive }
                else c5
              -- if self.auto_saveload: self.save()  (no field changes)
              .ok (c6, res, price)

/-- Python `Chat.summarize_and_clear_history`: call the model to summarize, then
keep only the last two transcript entries (`self.chat_history[-2:]`). -/
def Chat.summarize_and_clear_history (c : Chat) (provider : Option Completion) :
    Except (Chat × CallErr) Chat :=
  match c.call "今までの会話を要約してください。" 0 false provider with
  | .error e => .error e
  | .ok (c', _, _) =>
      .ok { c' with chat_history :=
        c'.chat_history.drop (c'.chat_history.length - 2) }

/-- Payload of a successful `openai.Embedding.create` call. -/
structure EmbeddingRes where
  total_tokens : Nat
  data : List (List ℚ)
deriving DecidableEq, Repr

/-- Each input item as the code sends it: `str(item).replace("\n", " ")`. -/
def cleanInput (s : String) : String := s.replace "\n" " "

/-- Python `Chat.embedding`: send the query (a single string, or an iterable of
strings, modelled by the sum), price it at the embedding model's input
rate, add to the fee, then return the vectors (the first one alone for a
single query) with the price.  The oracle `provider` is the outcome of
`openai.Embedding.create` on the cleaned inputs. -/
def Chat.embedding (c : Chat) (query : String ⊕ List String)
    (provider : List String → Option EmbeddingRes) :
    Except (Chat × CallErr) (Chat × (List ℚ ⊕ List (List ℚ)) × ℚ) :=
  let multiple_query := match query with | .inl _ => false | .inr _ => true
  let inputs := match query with
    | .inl q => [cleanInput q]
    | .inr items => items.map cleanInput
  match provider inputs with
  | none => .error (c, .providerError)
  | some res =>
      match c.pricing_data c.embedding_model_name with
      | none => .error (c, .keyError)
      | some pricing =>
          let price := (res.total_tokens : ℚ) * pricing.input
          let vecs := res.data
          let c' := { c with fee := c.fee + price }
          if multiple_query then
            .ok (c', .inr vecs, price)
          else
            match vecs with
            | [] => .error (c', .indexError)
            | v :: _ => .ok (c', .inl v, price)

/-! ## Derived notions used in the statements -/

/-- The transcript the exchange starts from: the old transcript, unless
interactive mode is off (and not overridden), which clears it. -/
def preHist (c : Chat) (ti : Bool) : List Speech :=
  if ti || c.interactive then c.chat_history else []

/-- The object state after a call, whether it returned or raised. -/
def postState {α : Type} (r : Except (Chat × CallErr) (Chat × α)) : Chat :=
  match r with
  | .ok (c, _) => c
  | .error (c, _) => c

/-- Fields of the object a `__call__` never writes. -/
def sameFrame (c' c : Chat) : Prop :=
  c'.model_name = c.model_name ∧
  c'.embedding_model_name = c.embedding_model_name ∧
  c'.api_key = c.api_key ∧
  (∀ m, c'.pricing_data m = c.pricing_data m) ∧
  c'.savedir = c.savedir ∧
  c'.auto_saveload = c.auto_saveload

/-- The value `__call__` writes into the cache, when it writes one:
the response, cached exactly when the exchange starts from an empty
transcript, the temperature is `0` and the key was not already cached. -/
def cacheWrite (c : Chat) (msg : String) (t : ℚ) (ti : Bool)
    (prov : Option Completion) : Option String :=
  if (preHist c ti).isEmpty ∧ t = 0 ∧ c.cache (c.model_name, msg) = none then
    prov.map Completion.content
  else none

/-- The object state after `load`, whether it returned or raised. -/
def postStateL (r : Except Chat Chat) : Chat :=
  match r with
  | .ok c => c
  | .error c => c

/-- Lookup of a key across a list of shards, later shards taking
precedence (the value of the last shard that contains the key). -/
def lookupShards : List ((String × String) → Option String) →
    (String × String) → Option String
  | [], _ => none
  | d :: rest, k =>
      match lookupShards rest k with
      | some v => some v
      | none => d k

/-- The transcript is a sequence of complete turns: a `user` entry then an
`assistant` entry, repeated. -/
def isTurns : List Speech → Bool
  | [] => true
  | [_] => false
  | u :: a :: rest => u.role == "user" && a.role == "assistant" && isTurns rest

/-- All rates in a pricing table are nonnegative. -/
def PricingNonneg (pd : String → Option Pricing) : Prop :=
  ∀ m p, pd m = some p → 0 ≤ p.input ∧ ∀ r, p.output = some r → 0 ≤ r

/-! ## Shared concrete states for witnesses and counterexamples -/

/-- A freshly constructed `Chat` (the state after `__init__` with the
default arguments, before `load`). -/
def chat0 : Chat where
  api_key := "k"
  model_name := "gpt-3.5-turbo"
  embedding_model_name := "text-embedding-ada-002"
  pricing_data := initPricing
  fee := 0
  cache := fun _ => none
  savedir := "./chatgpt/"
  chat_history := []
  interactive := true
  auto_saveload := true

/-- State `chat0` with one cached response for `("gpt-3.5-turbo", "hi")`. -/
def chatW : Chat :=
  { chat0 with cache := fun k =>
      if k = ("gpt-3.5-turbo", "hi") then some "hello" else none }

/-- A non-interactive chat with one completed turn in the transcript. -/
def cNI : Chat :=
  { chat0 with
    interactive := false
    chat_history := [Speech.mk "user" "a", Speech.mk "assistant" "b"] }

/-- A non-interactive chat with a cached response for `("gpt-3.5-turbo", "hi")`. -/
def cHit : Chat := { chatW with interactive := false }

/-- An interactive chat with one completed turn in the transcript. -/
def cHist2 : Chat :=
  { chat0 with chat_history := [Speech.mk "user" "a", Speech.mk "assistant" "b"] }

/-- Two concrete shards holding different values for the same key. -/
def shard1 : (String × String) → Option String :=
  fun k => if k = ("m", "q") then some "v1" else none

def shard2 : (String × String) → Option String :=
  fun k => if k = ("m", "q") then some "v2" else none

/-! ## Characterization lemmas -/

theorem call_frame (c : Chat) (msg : String) (t : ℚ) (ti : Bool)
    (prov : Option Completion) :
    (∀ c' res price, c.call msg t ti prov = .ok (c', res, price) → sameFrame c' c) ∧
    (∀ c' e, c.call msg t ti prov = .error (c', e) → sameFrame c' c) := by
  cases ti <;> cases hI : c.interactive <;>
    constructor <;>
    · intro c' x h
      try intro h
      simp [Chat.call, hI] at h <;>
      (repeat' split at h) <;> (try simp_all [sameFrame]) <;>
      first
        | (subst h; simp [sameFrame])
        | (obtain ⟨rfl, rfl, rfl⟩ := h; simp [sameFrame])

theorem call_ok_history (c : Chat) (msg : String) (t : ℚ) (ti : Bool)
    (prov : Option Completion) (c' : Chat) (res : String) (price : ℚ)
    (h : c.call msg t ti prov = .ok (c', res, price)) :
    c'.chat_history = preHist c ti ++ [Speech.mk "user" msg, Speech.mk "assistant" res] := by
  cases ti <;> cases hI : c.interactive <;>
    simp [Chat.call, preHist, hI] at h ⊢ <;>
    (repeat' split at h) <;> (try simp_all) <;>
    (try (subst h; simp)) <;>
    (try (obtain ⟨rfl, rfl, rfl⟩ := h; simp)) <;>
    (try tauto)

theorem call_providerError_history (c : Chat) (msg : String) (t : ℚ) (ti : Bool)
    (prov : Option Completion) (c' : Chat)
    (h : c.call msg t ti prov = .error (c', .providerError)) :
    c'.chat_history = preHist c ti := by
  cases ti <;> cases hI : c.interactive <;>
    simp [Chat.call, preHist, hI] at h ⊢ <;>
    (repeat' split at h) <;> (try simp_all) <;>
    (try (subst h; simp)) <;>
    (try (obtain ⟨rfl, rfl, rfl⟩ := h; simp)) <;>
    (try tauto)

theorem call_keyError_history (c : Chat) (msg : String) (t : ℚ) (ti : Bool)
    (prov : Option Completion) (c' : Chat)
    (h : c.call msg t ti prov = .error (c', .keyError)) :
    ∃ r, prov = some r ∧
      c'.chat_history = preHist c ti ++
        [Speech.mk "user" msg, Speech.mk "assistant" r.content] := by
  cases ti <;> cases hI : c.interactive <;>
    simp [Chat.call, preHist, hI] at h ⊢ <;>
    (repeat' split at h) <;> (try simp_all) <;>
    (try (subst h; simp)) <;>
    (try (obtain ⟨rfl, rfl, rfl⟩ := h; simp)) <;>
    (try tauto)

theorem call_cache_change (c : Chat) (msg : String) (t : ℚ) (ti : Bool)
    (prov : Option Completion) :
    (∀ c' res price, c.call msg t ti prov = .ok (c', res, price) →
      ∀ k, c'.cache k =
        if k = (c.model_name, msg) then
          match cacheWrite c msg t ti prov with
          | some v => some v
          | none => c.cache k
        else c.cache k) ∧
    (∀ c' e, c.call msg t ti prov = .error (c', e) →
      ∀ k, c'.cache k =
        if k = (c.model_name, msg) then
          match cacheWrite c msg t ti prov with
          | some v => some v
          | none => c.cache k
        else c.cache k) := by
  cases ti <;> cases hI : c.interactive <;>
    by_cases ht : t = 0 <;>
    cases hcache : c.cache (c.model_name, msg) <;>
    cases hh : c.chat_history <;>
    constructor <;>
    · intros
      rename_i h k
      simp [Chat.call, preHist, cacheWrite, hI, ht, hcache, hh] at h ⊢ <;>
      (repeat' split at h) <;> (try simp_all) <;>
      (try (subst h; simp_all)) <;>
      (try (obtain ⟨rfl, rfl, rfl⟩ := h; simp_all)) <;>
      (try (split <;> simp_all))

theorem call_fee (c : Chat) (msg : String) (t : ℚ) (ti : Bool)
    (prov : Option Completion) :
    (∀ c' res price, c.call msg t ti prov = .ok (c', res, price) →
      c'.fee = c.fee + price ∧
      (price = 0 ∨ ∃ r, prov = some r ∧
        ∃ pricing, c.pricing_data c.model_name = some pricing ∧
          ∃ outR, pricing.output = some outR ∧
            price = pricing.input * (r.prompt_tokens : ℚ) +
              outR * (r.completion_tokens : ℚ))) ∧
    (∀ c' e, c.call msg t ti prov = .error (c', e) → c'.fee = c.fee) := by
  cases ti <;> cases hI : c.interactive <;>
    constructor <;>
    · intro c' x h
      try intro h
      simp [Chat.call, hI] at h <;>
      (repeat' split at h) <;> (try simp_all) <;>
      (try (subst h; simp)) <;>
      (try (obtain ⟨rfl, rfl, rfl⟩ := h; simp_all)) <;>
      (try (rename_i heq; simp only [Chat.calculate_price] at heq;
            (repeat' split at heq) <;> simp_all))

theorem call_interactive_tt (c : Chat) (msg : String) (t : ℚ)
    (prov : Option Completion) (c' : Chat) (res : String) (price : ℚ)
    (h : c.call msg t true prov = .ok (c', res, price)) :
    c'.interactive =
      if c.chat_history.isEmpty ∧ t = 0 ∧ (c.cache (c.model_name, msg)).isSome
      then true else c.interactive := by
  cases hI : c.interactive <;>
    simp [Chat.call, hI] at h ⊢ <;>
    (repeat' split at h) <;> (try simp_all) <;>
    (try (subst h; simp)) <;>
    (try (obtain ⟨rfl, rfl, rfl⟩ := h; simp)) <;>
    (try tauto)

theorem load_none_dicts_ok (c : Chat)
    (ds : List ((String × String) → Option String)) :
    ∃ c', c.load_none (ds.map Pickled.dict) = .ok c' ∧
      c'.chat_history = c.chat_history ∧ c'.fee = c.fee ∧
      c'.model_name = c.model_name ∧ c'.interactive = c.interactive ∧
      ∀ k, c'.cache k =
        match lookupShards ds k with
        | some v => some v
        | none => c.cache k := by
  induction ds generalizing c with
  | nil => exact ⟨c, rfl, rfl, rfl, rfl, rfl, fun k => by simp [lookupShards]⟩
  | cons d rest ih =>
      obtain ⟨c', hload, hhist, hfee, hmn, hint, hcache⟩ :=
        ih { c with cache := fun k => match d k with
                | some v => some v
                | none => c.cache k }
      refine ⟨c', ?_, hhist, hfee, hmn, hint, ?_⟩
      · simpa [Chat.load_none, Chat.load_file] using hload
      · intro k
        rw [hcache k]
        simp only [lookupShards]
        rcases lookupShards rest k with _ | v <;> simp

theorem load_none_frame (c : Chat) (pks : List Pickled) :
    (postStateL (c.load_none pks)).chat_history = c.chat_history ∧
    (postStateL (c.load_none pks)).fee = c.fee ∧
    (postStateL (c.load_none pks)).model_name = c.model_name ∧
    (postStateL (c.load_none pks)).interactive = c.interactive := by
  induction pks generalizing c with
  | nil => exact ⟨rfl, rfl, rfl, rfl⟩
  | cons pk rest ih =>
      cases pk with
      | dict d =>
          have h := ih { c with cache := fun k => match d k with
                  | some v => some v
                  | none => c.cache k }
          simpa [Chat.load_none, Chat.load_file] using h
      | other => exact ⟨rfl, rfl, rfl, rfl⟩

theorem lookupShards_eq_none (ds : List ((String × String) → Option String))
    (k : String × String) (h : ∀ d ∈ ds, d k = none) :
    lookupShards ds k = none := by
  induction ds with
  | nil => rfl
  | cons d rest ih =>
      simp only [lookupShards, ih fun d hd => h d (List.mem_cons_of_mem _ hd)]
      exact h d (List.mem_cons_self d rest)

theorem lookupShards_last (ds : List ((String × String) → Option String))
    (k : String × String) (i : ℕ) (v : String) (hi : i < ds.length)
    (hv : ds.get ⟨i, hi⟩ k = some v)
    (hafter : ∀ j (hj : j < ds.length), i < j → ds.get ⟨j, hj⟩ k = none) :
    lookupShards ds k = some v := by
  induction ds generalizing i with
  | nil => simp at hi
  | cons d rest ih =>
      cases i with
      | zero =>
          have hrest : ∀ d' ∈ rest, d' k = none := by
            intro d' hd'
            obtain ⟨⟨j, hj⟩, rfl⟩ := List.mem_iff_get.mp hd'
            exact hafter (j + 1) (by simpa using hj) (Nat.succ_pos j)
          simp only [lookupShards, lookupShards_eq_none rest k hrest]
          exact hv
      | succ i' =>
          have hlast := ih i' (by simpa using hi) hv
            fun j hj hlt => hafter (j + 1) (by simpa using hj) (by omega)
          simp [lookupShards, hlast]

theorem summarize_cases (c : Chat) (prov : Option Completion) :
    (∀ c'', c.summarize_and_clear_history prov = .ok c'' →
      ∃ c' res price,
        c.call "今までの会話を要約してください。" 0 false prov = .ok (c', res, price) ∧
        c'' = { c' with chat_history :=
          c'.chat_history.drop (c'.chat_history.length - 2) }) ∧
    (∀ ce, c.summarize_and_clear_history prov = .error ce →
      c.call "今までの会話を要約してください。" 0 false prov = .error ce) := by
  unfold Chat.summarize_and_clear_history
  rcases hc : c.call "今までの会話を要約してください。" 0 false prov with ce | ⟨c', res, price⟩ <;>
    simp only [hc] <;> constructor
  · intro x h
    exact absurd h (by simp)
  · intro x h
    simp at h
    subst h
    rfl
  · intro x h
    simp at h
    subst h
    exact ⟨c', res, price, rfl, rfl⟩
  · intro x h
    exact absurd h (by simp)

theorem isTurns_append_pair : ∀ (l : List Speech) (m r : String),
    isTurns l = true →
    isTurns (l ++ [Speech.mk "user" m, Speech.mk "assistant" r]) = true
  | [], m, r, _ => by simp [isTurns]
  | [_], m, r, h => by simp [isTurns] at h
  | u :: a :: rest, m, r, h => by
      simp [isTurns] at h ⊢
      exact ⟨h.1, isTurns_append_pair rest m r h.2⟩

theorem isTurns_alternates : ∀ (l : List Speech), isTurns l = true →
    ∀ i (hi : i < l.length),
      (l.get ⟨i, hi⟩).role = if i % 2 = 0 then "user" else "assistant"
  | [], _, i, hi => by simp at hi
  | [_], h, _, _ => by simp [isTurns] at h
  | u :: a :: rest, h, 0, hi => by
      simp [isTurns] at h
      simpa using h.1.1
  | u :: a :: rest, h, 1, hi => by
      simp [isTurns] at h
      simpa using h.1.2
  | u :: a :: rest, h, (n+2), hi => by
      simp [isTurns] at h
      have := isTurns_alternates rest h.2 n (by simpa using hi)
      simpa [Nat.add_mod_right] using this

theorem isTurns_preHist (c : Chat) (ti : Bool)
    (h : isTurns c.chat_history = true) : isTurns (preHist c ti) = true := by
  unfold preHist
  split <;> simp [h, isTurns]

theorem embedding_state (c : Chat) (query : String ⊕ List String)
    (prov : List String → Option EmbeddingRes) :
    (∀ c' v p, c.embedding query prov = .ok (c', v, p) →
      c'.chat_history = c.chat_history ∧ (∀ k, c'.cache k = c.cache k) ∧
      c'.interactive = c.interactive ∧ c'.model_name = c.model_name ∧
      c'.fee = c.fee + p ∧
      ∃ n : ℕ, ∃ pricing, c.pricing_data c.embedding_model_name = some pricing ∧
        p = (n : ℚ) * pricing.input) ∧
    (∀ c' e, c.embedding query prov = .error (c', e) →
      c'.chat_history = c.chat_history ∧ (∀ k, c'.cache k = c.cache k) ∧
      c'.interactive = c.interactive ∧ c'.model_name = c.model_name ∧
      ∃ p, c'.fee = c.fee + p ∧
        (p = 0 ∨ ∃ n : ℕ, ∃ pricing,
          c.pricing_data c.embedding_model_name = some pricing ∧
          p = (n : ℚ) * pricing.input)) := by
  constructor <;>
  · intro c' x h
    try intro h
    rcases query with q | qs <;>
      simp [Chat.embedding] at h <;>
      (repeat' split at h) <;> (try simp_all) <;>
      (try (obtain ⟨rfl, rfl, rfl⟩ := h; simp_all)) <;>
      (try (refine ⟨_, rfl, Or.inr ?_⟩; rename_i pricing heq; exact ⟨_, pricing, by simp_all, rfl⟩)) <;>
      (try exact ⟨0, by simp⟩) <;>
      (try exact ⟨_, _, by simp_all, rfl⟩)

theorem initPricing_nonneg : PricingNonneg initPricing := by
  intro m p hp
  unfold initPricing at hp
  split_ifs at hp <;> cases hp <;>
    refine ⟨by norm_num, fun r hr => ?_⟩ <;> (try cases hr) <;> norm_num

theorem call_error_history (c : Chat) (msg : String) (t : ℚ) (ti : Bool)
    (prov : Option Completion) (c' : Chat) (e : CallErr)
    (h : c.call msg t ti prov = .error (c', e)) :
    c'.chat_history = preHist c ti ∨
      ∃ r, prov = some r ∧ c'.chat_history = preHist c ti ++
        [Speech.mk "user" msg, Speech.mk "assistant" r.content] := by
  cases ti <;> cases hI : c.interactive <;>
    simp [Chat.call, preHist, hI] at h ⊢ <;>
    (repeat' split at h) <;> (try simp_all) <;>
    (try (subst h; simp)) <;>
    (try (obtain ⟨rfl, rfl⟩ := h; simp))

theorem call_providerError_prov (c : Chat) (msg : String) (t : ℚ) (ti : Bool)
    (prov : Option Completion) (c' : Chat)
    (h : c.call msg t ti prov = .error (c', .providerError)) :
    prov = none := by
  cases prov with
  | none => rfl
  | some r =>
      cases ti <;> cases hI : c.interactive <;>
        simp [Chat.call, hI] at h <;>
        (repeat' split at h) <;> simp_all

theorem drop_append_pair (l : List Speech) (u a : Speech) :
    (l ++ [u, a]).drop ((l ++ [u, a]).length - 2) = [u, a] := by
  have : (l ++ [u, a]).length - 2 = l.length := by
    simp [List.length_append]
  rw [this, List.drop_left]

theorem call_error_kind (c : Chat) (msg : String) (t : ℚ) (ti : Bool)
    (prov : Option Completion) (c' : Chat) (e : CallErr)
    (h : c.call msg t ti prov = .error (c', e)) :
    e = .providerError ∨ e = .keyError := by
  cases ti <;> cases hI : c.interactive <;>
    simp [Chat.call, hI] at h <;>
    (repeat' split at h) <;> simp_all

theorem call_ok_res_of_miss (c : Chat) (msg : String) (t : ℚ) (ti : Bool)
    (prov : Option Completion) (c' : Chat) (res : String) (price : ℚ)
    (h : c.call msg t ti prov = .ok (c', res, price)) (r : Completion)
    (hr : prov = some r) (hmiss : c.cache (c.model_name, msg) = none) :
    res = r.content := by
  subst hr
  cases ti <;> cases hI : c.interactive <;>
    simp [Chat.call, hI] at h <;>
    (repeat' split at h) <;> simp_all

/-! ## C1 -/

/-- C1: a `__call__` with the transcript empty, temperature `0` and the
key `(model_name, message)` in the cache returns the cached text with
price `0`, and leaves `self.fee` unchanged. -/
theorem call_cache_hit_returns_cached (c : Chat) (message : String) (ti : Bool)
    (prov : Option Completion) (res : String)
    (hhist : c.chat_history = [])
    (hcache : c.cache (c.model_name, message) = some res) :
    ∃ c', c.call message 0 ti prov = .ok (c', res, 0) ∧ c'.fee = c.fee := by
  cases ti <;> cases hI : c.interactive <;>
    simp [Chat.call, hhist, hI, hcache]

/-- C1 witness: concrete cache hit on `chatW`. -/
theorem call_cache_hit_returns_cached_witness :
    ∃ c', chatW.call "hi" 0 false none = .ok (c', "hello", 0) ∧
      c'.fee = chatW.fee :=
  call_cache_hit_returns_cached chatW "hi" false none "hello" rfl rfl

/-! ## C3 -/

/-- C3 (amended): if the provider round trip raises, the transcript is left
exactly as it stood after the (possible) non-interactive clearing — in
particular unchanged whenever interactive mode is in effect for the call;
on success the user message and the assistant response are appended
together, as the final two entries, onto that same starting transcript. -/
theorem call_transcript_update (c : Chat) (msg : String) (t : ℚ) (ti : Bool)
    (prov : Option Completion) :
    (∀ c', c.call msg t ti prov = .error (c', .providerError) →
      c'.chat_history = if ti || c.interactive then c.chat_history else []) ∧
    (∀ c' res price, c.call msg t ti prov = .ok (c', res, price) →
      c'.chat_history =
        (if ti || c.interactive then c.chat_history else []) ++
          [Speech.mk "user" msg, Speech.mk "assistant" res]) := by
  cases ti <;> cases hI : c.interactive <;>
    simp [Chat.call, hI] <;>
    constructor <;>
    · intro c' h
      try intro res h
      try intro price h
      (repeat' split at h) <;> (try simp_all) <;>
        first
          | (subst h; simp)
          | (obtain ⟨rfl, rfl, rfl⟩ := h; simp)

/-- C3 counterexample: with interactive mode off and a non-empty transcript,
a call whose provider raises leaves the transcript cleared, not as it was
before the call. -/
theorem call_error_after_clear_cex :
    cNI.call "x" 0 false none =
      .error ({ cNI with chat_history := [] }, .providerError) ∧
    cNI.chat_history ≠ [] := by
  constructor
  · rfl
  · decide

/-! ## C8 -/

theorem calculate_price_error_of_model (c : Chat)
    (hpd : c.pricing_data = initPricing)
    (h35 : c.model_name ≠ "gpt-3.5-turbo") (h4 : c.model_name ≠ "gpt-4")
    (i o : ℚ) : c.calculate_price i o = .error () := by
  by_cases he : c.model_name = "text-embedding-ada-002" <;>
    simp [Chat.calculate_price, hpd, initPricing, h35, h4, he]

/-- C8: `calculate_price` (and `estimate_price`, which calls it, and the
billing step of `__call__`) raises a `KeyError` whenever the current model
name is neither `gpt-3.5-turbo` nor `gpt-4` — in particular for
`text-embedding-ada-002`, whose pricing entry has no `output` rate — and
succeeds whenever it is one of the two. -/
theorem calculate_price_key_lookup (c : Chat)
    (hpd : c.pricing_data = initPricing) :
    (∀ i o : ℚ, c.model_name ≠ "gpt-3.5-turbo" → c.model_name ≠ "gpt-4" →
      c.calculate_price i o = .error ()) ∧
    (∀ msg, c.model_name ≠ "gpt-3.5-turbo" → c.model_name ≠ "gpt-4" →
      c.estimate_price msg = .error ()) ∧
    (∀ msg t ti r, t ≠ 0 →
      c.model_name ≠ "gpt-3.5-turbo" → c.model_name ≠ "gpt-4" →
      ∃ c', c.call msg t ti (some r) = .error (c', .keyError)) ∧
    (∀ i o : ℚ, (c.model_name = "gpt-3.5-turbo" ∨ c.model_name = "gpt-4") →
      ∃ p, c.calculate_price i o = .ok p) := by
  refine ⟨fun i o h35 h4 => calculate_price_error_of_model c hpd h35 h4 i o,
    fun msg h35 h4 => calculate_price_error_of_model c hpd h35 h4 _ _,
    ?_, fun i o hm => ?_⟩
  · intro msg t ti r ht h35 h4
    cases ti <;> cases hI : c.interactive <;>
      simp [Chat.call, hI, ht] <;>
      (rw [calculate_price_error_of_model] <;>
        first
          | exact hpd
          | exact h35
          | exact h4
          | simp)
  · rcases hm with hm | hm <;>
      simp [Chat.calculate_price, hpd, initPricing, hm]

/-- C8 witness: the embedding model's entry makes `calculate_price` raise,
while the default chat model prices successfully. -/
theorem calculate_price_key_lookup_witness :
    ({ chat0 with model_name := "text-embedding-ada-002" } : Chat).calculate_price 3 5
      = .error () ∧
    ∃ p, chat0.calculate_price 3 5 = .ok p :=
  ⟨(calculate_price_key_lookup { chat0 with model_name := "text-embedding-ada-002" }
      rfl).1 3 5 (by decide) (by decide),
   (calculate_price_key_lookup chat0 rfl).2.2.2 3 5 (Or.inl rfl)⟩

/-! ## C9 -/

/-- C9: `load` on a shard whose pickled content is not a dictionary raises
the assertion error before any merge: the error carries the object exactly
as it was, its cache unchanged. -/
theorem load_nondict_assertion (c : Chat) (pk : Pickled)
    (hnd : ∀ d, pk ≠ Pickled.dict d) :
    c.load_file pk = .error c := by
  cases pk with
  | dict d => exact absurd rfl (hnd d)
  | other => rfl

/-- C9 witness: loading a non-dict pickle from `chat0` raises and returns
the state untouched. -/
theorem load_nondict_assertion_witness :
    chat0.load_file Pickled.other = .error chat0 :=
  load_nondict_assertion chat0 Pickled.other (fun d h => by cases h)

/-! ## C10 -/

/-- C10 (amended): a successful `__call__` with `temporary_interactive=True`
restores `self.interactive` unless it returned from the cache-hit branch,
which leaves `self.interactive = True`; and no successful call changes
`model_name`, `embedding_model_name`, `api_key`, `pricing_data` or
`savedir`. -/
theorem call_restores_interactive_and_frame :
    (∀ (c : Chat) msg t prov c' res price,
      c.call msg t true prov = .ok (c', res, price) →
      c'.interactive =
        if c.chat_history.isEmpty ∧ t = 0 ∧ (c.cache (c.model_name, msg)).isSome
        then true else c.interactive) ∧
    (∀ (c : Chat) msg t ti prov c' res price,
      c.call msg t ti prov = .ok (c', res, price) → sameFrame c' c) :=
  ⟨fun c msg t prov c' res price h =>
      call_interactive_tt c msg t prov c' res price h,
   fun c msg t ti prov c' res price h =>
      (call_frame c msg t ti prov).1 c' res price h⟩

/-- C10 counterexample: a cache hit under `temporary_interactive=True`
returns with `self.interactive` still forced to `True`, not restored to the
`False` it held before the call. -/
theorem cache_hit_leaves_interactive_cex :
    ∃ c' res price, cHit.call "hi" 0 true none = .ok (c', res, price) ∧
      c'.interactive = true ∧ cHit.interactive = false :=
  ⟨_, _, _, rfl, rfl, rfl⟩

/-! ## C6 -/

/-- C6: `load()` with no path merges every shard into the cache by
dictionary union: a key found in some shard ends at the value of the last
shard that contains it, and a key found in no shard keeps its prior value. -/
theorem load_merges_all_shards (c : Chat)
    (ds : List ((String × String) → Option String)) :
    ∃ c', c.load_none (ds.map Pickled.dict) = .ok c' ∧
      (∀ k i v (hi : i < ds.length), ds.get ⟨i, hi⟩ k = some v →
        (∀ j (hj : j < ds.length), i < j → ds.get ⟨j, hj⟩ k = none) →
        c'.cache k = some v) ∧
      (∀ k, (∀ i (hi : i < ds.length), ds.get ⟨i, hi⟩ k = none) →
        c'.cache k = c.cache k) := by
  obtain ⟨c', hload, hhist, hfee, hmn, hint, hcache⟩ := load_none_dicts_ok c ds
  refine ⟨c', hload, ?_, ?_⟩
  · intro k i v hi hv hafter
    rw [hcache k, lookupShards_last ds k i v hi hv hafter]
  · intro k hnone
    have hnil : lookupShards ds k = none := by
      refine lookupShards_eq_none ds k ?_
      intro d hd
      obtain ⟨⟨j, hj⟩, rfl⟩ := List.mem_iff_get.mp hd
      exact hnone j hj
    rw [hcache k, hnil]

/-! ## C2 -/

/-- C2 (amended): `__call__` adds a cache entry only when the exchange
starts from an empty transcript (empty before the call, or cleared because
interactive mode was off) with temperature `0` and the key not already
cached; the entry maps `(model name, message)` to the response, and the
transcript then holds exactly the new user/assistant pair.  `reset`, `save`
and `embedding` never touch the cache; `summarize_and_clear_history`
changes it only through its internal `__call__`; `load` also adds entries
(merging shards). -/
theorem call_cache_population_rules :
    (∀ (c : Chat) msg t ti prov k,
      (postState (c.call msg t ti prov)).cache k ≠ c.cache k →
      k = (c.model_name, msg) ∧ preHist c ti = [] ∧ t = 0 ∧
      c.cache (c.model_name, msg) = none ∧
      ∃ r, prov = some r ∧
        (postState (c.call msg t ti prov)).cache k = some r.content ∧
        (postState (c.call msg t ti prov)).chat_history =
          [Speech.mk "user" msg, Speech.mk "assistant" r.content]) ∧
    (∀ c : Chat, (c.reset).cache = c.cache) ∧
    (∀ c : Chat, (c.save).cache = c.cache) ∧
    (∀ (c : Chat) q prov k, (postState (c.embedding q prov)).cache k = c.cache k) ∧
    (∀ (c : Chat) prov,
      (match c.summarize_and_clear_history prov with
        | .ok c'' => c''.cache
        | .error ce => ce.1.cache) =
      (postState (c.call "今までの会話を要約してください。" 0 false prov)).cache) := by
  refine ⟨?_, fun c => rfl, fun c => rfl, ?_, ?_⟩
  · intro c msg t ti prov k hne
    rcases hc : c.call msg t ti prov with ⟨ce, e⟩ | ⟨c', res, price⟩ <;>
      simp only [hc, postState] at hne ⊢
    · have heq := (call_cache_change c msg t ti prov).2 ce e hc k
      by_cases hk : k = (c.model_name, msg)
      · rw [heq, if_pos hk] at hne
        rcases hw : cacheWrite c msg t ti prov with _ | v
        · rw [hw] at hne
          exact absurd rfl hne
        · have hval : ce.cache k = some v := by rw [heq, if_pos hk, hw]
          unfold cacheWrite at hw
          split at hw
          · rename_i hcond
            obtain ⟨hpre, ht, hmiss⟩ := hcond
            obtain ⟨r, hr, hv⟩ := Option.map_eq_some'.mp hw
            have hpre' := List.isEmpty_iff.mp hpre
            refine ⟨hk, hpre', ht, hmiss, r, hr, ?_, ?_⟩
            · rw [hval, hv]
            · cases e with
              | providerError =>
                  exact absurd (call_providerError_prov c msg t ti prov ce hc)
                    (by simp [hr])
              | keyError =>
                  obtain ⟨r', hr', hhist⟩ :=
                    call_keyError_history c msg t ti prov ce hc
                  rw [hr] at hr'
                  cases hr'
                  rw [hhist, hpre']
                  rfl
              | indexError =>
                  rcases call_error_kind c msg t ti prov ce .indexError hc with
                    hk2 | hk2 <;> cases hk2
          · cases hw
      · rw [heq, if_neg hk] at hne
        exact absurd rfl hne
    · have heq := (call_cache_change c msg t ti prov).1 c' res price hc k
      by_cases hk : k = (c.model_name, msg)
      · rw [heq, if_pos hk] at hne
        rcases hw : cacheWrite c msg t ti prov with _ | v
        · rw [hw] at hne
          exact absurd rfl hne
        · have hval : c'.cache k = some v := by rw [heq, if_pos hk, hw]
          unfold cacheWrite at hw
          split at hw
          · rename_i hcond
            obtain ⟨hpre, ht, hmiss⟩ := hcond
            obtain ⟨r, hr, hv⟩ := Option.map_eq_some'.mp hw
            have hpre' := List.isEmpty_iff.mp hpre
            refine ⟨hk, hpre', ht, hmiss, r, hr, ?_, ?_⟩
            · rw [hval, hv]
            · have hhist := call_ok_history c msg t ti prov c' res price hc
              have hres := call_ok_res_of_miss c msg t ti prov c' res price hc
                r hr hmiss
              rw [hhist, hpre', hres]
              rfl
          · cases hw
      · rw [heq, if_neg hk] at hne
        exact absurd rfl hne
  · intro c q prov k
    rcases he : c.embedding q prov with ⟨ce, e⟩ | ⟨c', v, p⟩ <;>
      simp only [postState]
    · exact ((embedding_state c q prov).2 ce e he).2.1 k
    · exact ((embedding_state c q prov).1 c' v p he).2.1 k
  · intro c prov
    rcases hs : c.summarize_and_clear_history prov with ce | c''
    · have hc := (summarize_cases c prov).2 ce hs
      rw [hc]
      rfl
    · obtain ⟨c', res, price, hc, hcc⟩ := (summarize_cases c prov).1 c'' hs
      rw [hc, hcc]
      rfl

/-- C2 counterexample: a call whose transcript was *not* empty before the
call still caches (the non-interactive clearing empties it first), and
`load` — another operation — also adds a cache entry. -/
theorem cache_added_beyond_claim_cex :
    (∃ c' res price,
      cNI.call "x" 0 false (some (Completion.mk "resp" 3 5)) =
        .ok (c', res, price) ∧
      c'.cache ("gpt-3.5-turbo", "x") = some "resp" ∧
      cNI.cache ("gpt-3.5-turbo", "x") = none ∧
      cNI.chat_history ≠ []) ∧
    (∃ c', chat0.load_file (Pickled.dict shard1) = .ok c' ∧
      c'.cache ("m", "q") = some "v1" ∧ chat0.cache ("m", "q") = none) := by
  constructor
  · exact ⟨_, _, _, rfl, rfl, rfl, by decide⟩
  · exact ⟨_, rfl, rfl, rfl⟩

/-! ## C4 -/

/-- C4 (amended): the transcript is append-only — a `__call__` only ever
appends a complete user/assistant pair to the transcript it starts from,
and `save`, `load` and `embedding` leave it untouched — except that
`reset` empties it, a `__call__` with interactive mode off clears it
before the exchange, and `summarize_and_clear_history` truncates it to
the final user/assistant pair. -/
theorem transcript_mutation_rules :
    (∀ (c : Chat) msg t ti prov c' res price,
      c.call msg t ti prov = .ok (c', res, price) →
      c'.chat_history =
        preHist c ti ++ [Speech.mk "user" msg, Speech.mk "assistant" res]) ∧
    (∀ (c : Chat) msg t ti prov c' e,
      c.call msg t ti prov = .error (c', e) →
      c'.chat_history = preHist c ti ∨
        ∃ r, prov = some r ∧ c'.chat_history =
          preHist c ti ++ [Speech.mk "user" msg, Speech.mk "assistant" r.content]) ∧
    (∀ (c : Chat) ti, (ti || c.interactive) = true → preHist c ti = c.chat_history) ∧
    (∀ c : Chat, (c.reset).chat_history = []) ∧
    (∀ c : Chat, (c.save).chat_history = c.chat_history) ∧
    (∀ (c : Chat) pks, (postStateL (c.load_none pks)).chat_history = c.chat_history) ∧
    (∀ (c : Chat) pk, (postStateL (c.load_file pk)).chat_history = c.chat_history) ∧
    (∀ (c : Chat) q prov,
      (postState (c.embedding q prov)).chat_history = c.chat_history) ∧
    (∀ (c : Chat) prov c'', c.summarize_and_clear_history prov = .ok c'' →
      ∃ res, c''.chat_history =
        [Speech.mk "user" "今までの会話を要約してください。",
         Speech.mk "assistant" res]) := by
  refine ⟨?_, ?_, ?_, fun c => rfl, fun c => rfl, ?_, ?_, ?_, ?_⟩
  · exact fun c msg t ti prov c' res price h =>
      call_ok_history c msg t ti prov c' res price h
  · exact fun c msg t ti prov c' e h =>
      call_error_history c msg t ti prov c' e h
  · intro c ti h
    unfold preHist
    rw [h]
    rfl
  · exact fun c pks => (load_none_frame c pks).1
  · intro c pk
    cases pk <;> rfl
  · intro c q prov
    rcases he : c.embedding q prov with ⟨ce, e⟩ | ⟨c', v, p⟩ <;>
      simp only [postState]
    · exact ((embedding_state c q prov).2 ce e he).1
    · exact ((embedding_state c q prov).1 c' v p he).1
  · intro c prov c'' hs
    obtain ⟨c', res, price, hc, hcc⟩ := (summarize_cases c prov).1 c'' hs
    have hhist := call_ok_history c "今までの会話を要約してください。" 0 false prov
      c' res price hc
    refine ⟨res, ?_⟩
    rw [hcc]
    show c'.chat_history.drop (c'.chat_history.length - 2) = _
    rw [hhist, drop_append_pair]

/-- C4 counterexample: `summarize_and_clear_history` removes transcript
entries even though the claim's only allowed removals are `reset` and the
non-interactive clearing in `__call__`. -/
theorem summarize_truncates_history_cex :
    ∃ c'', cHist2.summarize_and_clear_history (some (Completion.mk "s" 1 1)) =
      .ok c'' ∧
    Speech.mk "user" "a" ∈ cHist2.chat_history ∧
    Speech.mk "user" "a" ∉ c''.chat_history := by
  exact ⟨_, rfl, by decide, by decide⟩

/-! ## C5 -/

/-- C5: with the nonnegative pricing table, every operation leaves the
accumulated fee no smaller than before — billed calls add exactly the
price computed for them, raising calls and the pure operations leave the
fee unchanged. -/
theorem fee_monotonicity :
    (∀ (c : Chat) msg t ti prov, PricingNonneg c.pricing_data →
      (∀ c' res price, c.call msg t ti prov = .ok (c', res, price) →
        c'.fee = c.fee + price ∧ 0 ≤ price) ∧
      (∀ c' e, c.call msg t ti prov = .error (c', e) → c'.fee = c.fee)) ∧
    (∀ (c : Chat) q prov, PricingNonneg c.pricing_data →
      (∀ c' v p, c.embedding q prov = .ok (c', v, p) →
        c'.fee = c.fee + p ∧ 0 ≤ p) ∧
      (∀ c' e, c.embedding q prov = .error (c', e) → c.fee ≤ c'.fee)) ∧
    (∀ (c : Chat) pks, (postStateL (c.load_none pks)).fee = c.fee) ∧
    (∀ (c : Chat) pk, (postStateL (c.load_file pk)).fee = c.fee) ∧
    (∀ c : Chat, (c.save).fee = c.fee) ∧
    (∀ c : Chat, (c.reset).fee = c.fee) ∧
    (∀ (c : Chat) prov, PricingNonneg c.pricing_data →
      (∀ c'', c.summarize_and_clear_history prov = .ok c'' → c.fee ≤ c''.fee) ∧
      (∀ ce e, c.summarize_and_clear_history prov = .error (ce, e) →
        c.fee ≤ ce.fee)) := by
  have priceNonneg : ∀ (c : Chat) msg t ti prov c' res price,
      PricingNonneg c.pricing_data →
      c.call msg t ti prov = .ok (c', res, price) →
      c'.fee = c.fee + price ∧ 0 ≤ price := by
    intro c msg t ti prov c' res price hnn h
    obtain ⟨hfee, hdisj⟩ := (call_fee c msg t ti prov).1 c' res price h
    refine ⟨hfee, ?_⟩
    rcases hdisj with rfl | ⟨r, hr, pricing, hlook, outR, hout, hform⟩
    · exact le_refl 0
    · obtain ⟨hin, hor⟩ := hnn _ _ hlook
      rw [hform]
      exact add_nonneg (mul_nonneg hin (Nat.cast_nonneg _))
        (mul_nonneg (hor outR hout) (Nat.cast_nonneg _))
  refine ⟨?_, ?_, ?_, ?_, fun c => rfl, fun c => rfl, ?_⟩
  · intro c msg t ti prov hnn
    exact ⟨fun c' res price h => priceNonneg c msg t ti prov c' res price hnn h,
      fun c' e h => (call_fee c msg t ti prov).2 c' e h⟩
  · intro c q prov hnn
    constructor
    · intro c' v p h
      obtain ⟨-, -, -, -, hfee, n, pricing, hlook, hform⟩ :=
        (embedding_state c q prov).1 c' v p h
      refine ⟨hfee, ?_⟩
      rw [hform]
      exact mul_nonneg (Nat.cast_nonneg _) (hnn _ _ hlook).1
    · intro c' e h
      obtain ⟨-, -, -, -, p, hfee, hdisj⟩ := (embedding_state c q prov).2 c' e h
      rw [hfee]
      refine le_add_of_nonneg_right ?_
      rcases hdisj with rfl | ⟨n, pricing, hlook, hform⟩
      · exact le_refl 0
      · rw [hform]
        exact mul_nonneg (Nat.cast_nonneg _) (hnn _ _ hlook).1
  · exact fun c pks => (load_none_frame c pks).2.1
  · intro c pk
    cases pk <;> rfl
  · intro c prov hnn
    constructor
    · intro c'' hs
      obtain ⟨c', res, price, hc, hcc⟩ := (summarize_cases c prov).1 c'' hs
      obtain ⟨hfee, hp⟩ :=
        priceNonneg c _ 0 false prov c' res price hnn hc
      rw [hcc]
      show c.fee ≤ c'.fee
      rw [hfee]
      exact le_add_of_nonneg_right hp
    · intro ce e hs
      have hc := (summarize_cases c prov).2 (ce, e) hs
      exact le_of_eq ((call_fee c _ 0 false prov).2 ce e hc).symm

/-! ## C7 -/

/-- C7: starting from a transcript made of complete user/assistant turns,
every operation leaves it so — and such a transcript alternates `user`
and `assistant` entries starting with `user`. -/
theorem transcript_turns_alternation :
    (∀ l, isTurns l = true → ∀ i (hi : i < l.length),
      (l.get ⟨i, hi⟩).role = if i % 2 = 0 then "user" else "assistant") ∧
    (∀ (c : Chat) msg t ti prov, isTurns c.chat_history = true →
      isTurns (postState (c.call msg t ti prov)).chat_history = true) ∧
    (∀ c : Chat, isTurns (c.reset).chat_history = true) ∧
    (∀ c : Chat, isTurns c.chat_history = true →
      isTurns (c.save).chat_history = true) ∧
    (∀ (c : Chat) pks, isTurns c.chat_history = true →
      isTurns (postStateL (c.load_none pks)).chat_history = true) ∧
    (∀ (c : Chat) q prov, isTurns c.chat_history = true →
      isTurns (postState (c.embedding q prov)).chat_history = true) ∧
    (∀ (c : Chat) prov, isTurns c.chat_history = true →
      (∀ c'', c.summarize_and_clear_history prov = .ok c'' →
        isTurns c''.chat_history = true) ∧
      (∀ ce, c.summarize_and_clear_history prov = .error ce →
        isTurns ce.1.chat_history = true)) := by
  refine ⟨isTurns_alternates, ?_, fun c => rfl, fun c h => h, ?_, ?_, ?_⟩
  · intro c msg t ti prov hturns
    rcases hc : c.call msg t ti prov with ⟨ce, e⟩ | ⟨c', res, price⟩ <;>
      simp only [postState]
    · rcases call_error_history c msg t ti prov ce e hc with hh | ⟨r, hr, hh⟩
      · rw [hh]
        exact isTurns_preHist c ti hturns
      · rw [hh]
        exact isTurns_append_pair _ _ _ (isTurns_preHist c ti hturns)
    · rw [call_ok_history c msg t ti prov c' res price hc]
      exact isTurns_append_pair _ _ _ (isTurns_preHist c ti hturns)
  · intro c pks h
    rw [(load_none_frame c pks).1]
    exact h
  · intro c q prov h
    rcases he : c.embedding q prov with ⟨ce, e⟩ | ⟨c', v, p⟩ <;>
      simp only [postState]
    · rw [((embedding_state c q prov).2 ce e he).1]
      exact h
    · rw [((embedding_state c q prov).1 c' v p he).1]
      exact h
  · intro c prov hturns
    constructor
    · intro c'' hs
      obtain ⟨c', res, price, hc, hcc⟩ := (summarize_cases c prov).1 c'' hs
      have hhist := call_ok_history c _ 0 false prov c' res price hc
      rw [hcc]
      show isTurns (c'.chat_history.drop (c'.chat_history.length - 2)) = true
      rw [hhist, drop_append_pair]
      rfl
    · intro ce hs
      have hc := (summarize_cases c prov).2 ce hs
      rcases call_error_history c _ 0 false prov ce.1 ce.2 (by
        rcases ce with ⟨ce1, e⟩
        exact hc) with hh | ⟨r, hr, hh⟩
      · rw [hh]
        exact isTurns_preHist c false hturns
      · rw [hh]
        exact isTurns_append_pair _ _ _ (isTurns_preHist c false hturns)
